import Mathlib

/-! Verification of the moxy record/replay proxy core: a shallow embedding of
`src/configuration.rs` and `src/builder/storage.rs` / `src/builder/core.rs`
over `List Char` strings and a finite-map filesystem model, together with
theorems settling the specification claims. -/

namespace Moxy

/-- Strings are modelled as lists of characters; Rust byte indices become
character positions (the inputs of interest are ASCII). -/
abbrev Str := List Char

/-- Conversion from Lean string literals to the model's string type. -/
def str (s : String) : Str := s.toList

deriving instance DecidableEq for Except

/-- HTTP method (`RouteMethod` in `configuration.rs`). -/
inductive RouteMethod
  | GET
  | HEAD
  | POST
  | PUT
  | DELETE
  | CONNECT
  | OPTIONS
  | TRACE
  | PATCH
deriving DecidableEq

/-- `BuildMode` in `configuration.rs`. -/
inductive BuildMode
  | Read
  | Write
deriving DecidableEq

/-- One route (`Route` in `configuration.rs`): `path` is the request-uri
pattern, `resource` the backing file location. -/
structure Route where
  method : RouteMethod
  path : Str
  resource : Str
deriving DecidableEq

/-- `Configuration` in `configuration.rs` (the shape of `moxy.json`). -/
structure Configuration where
  host : Option Str
  remote : Option Str
  build_mode : Option BuildMode
  routes : List Route
deriving DecidableEq

/-- `Configuration::get_route`: the first route whose `path` field equals
`path` and whose method matches. -/
def Configuration.get_route (c : Configuration) (path : Str) (method : RouteMethod) :
    Option Route :=
  c.routes.find? (fun r => r.path == path && r.method == method)

/-- The effect on the route list of `Configuration::get_route_by_resource_mut`
followed by `route.resource = Some(to)` in `save`: only the first route whose
`resource` equals `frm` (for the given method) is repointed; later matches are
left untouched. -/
def update_first_resource (routes : List Route) (frm dst : Str) (method : RouteMethod) :
    List Route :=
  match routes with
  | [] => []
  | r :: rest =>
    if r.resource == frm && r.method == method then { r with resource := dst } :: rest
    else r :: update_first_resource rest frm dst method

/-- Rust `str::find(pat)`: position of the first occurrence of `pat`. -/
def strFind (hay pat : Str) : Option Nat :=
  match hay with
  | [] => if pat.isEmpty then some 0 else none
  | _ :: t => if pat.isPrefixOf hay then some 0 else (strFind t pat).map (· + 1)

/-- Rust `str::rfind(char)`: position of the last occurrence of `c`. -/
def strRFind (s : Str) (c : Char) : Option Nat :=
  match s with
  | [] => none
  | a :: t =>
    match strRFind t c with
    | some i => some (i + 1)
    | none => if a = c then some 0 else none

/-- The literal wildcard token of route patterns. -/
def wildcard : Str := ['$', '$', '$']

/-- Rust `&s[a..b]` on character positions: in bounds it is the characters
from `a` (inclusive) to `b` (exclusive); otherwise the program panics, which
the embedding reports as `Except.error`. -/
def strSlice (s : Str) (a b : Nat) : Except Unit Str :=
  if a ≤ b ∧ b ≤ s.length then .ok ((s.take b).drop a) else .error ()

/-- Outcome of one iteration of the route-scanning loop of `get_route` in
`configuration.rs`. -/
inductive StepResult
  | panic
  | found (r : Route) (capture : Option Str)
  | next
deriving DecidableEq

/-- The body of the `for` loop of `get_route` in `configuration.rs` for one
candidate route. The `path.ends_with(&i.path)` test at the bottom of the loop
body is reachable from every path of the wildcard block that does not
`return`, hence the shared `fallback`. A panicking string slice becomes
`StepResult.panic`. -/
def route_step (i : Route) (path : Str) (method : RouteMethod) : StepResult :=
  if i.method = method then
    let fallback : StepResult := if i.path.isSuffixOf path then .found i none else .next
    match strFind i.path wildcard with
    | some index =>
      let match_before := i.path.take index
      if match_before.isPrefixOf path then
        if index + 3 ≠ i.path.length then
          let match_end := i.path.drop (index + 3)
          if match_end.isSuffixOf path then
            let sd := match_end.length
            match strSlice path (i.path.length - 3 - sd) (path.length - sd) with
            | .ok cap => .found i (some cap)
            | .error _ => .panic
          else fallback
        else
          match strSlice path (i.path.length - 3) path.length with
          | .ok cap => .found i (some cap)
          | .error _ => .panic
      else fallback
    | none => fallback
  else .next

/-- `get_route` in `configuration.rs` (the wildcard matcher): scan the routes
in insertion order; `Except.error` models a panic of the slice indexing. -/
def get_route (routes : List Route) (path : Str) (method : RouteMethod) :
    Except Unit (Option Route × Option Str) :=
  match routes with
  | [] => .ok (none, none)
  | i :: rest =>
    match route_step i path method with
    | .panic => .error ()
    | .found r cap => .ok (some r, cap)
    | .next => get_route rest path method

/-- Spec wording: a pattern containing the wildcard token splits at its first
occurrence into the text before and the text after the token. -/
def wildcard_parts (pat : Str) : Option (Str × Str) :=
  (strFind pat wildcard).map (fun i => (pat.take i, pat.drop (i + 3)))

/-- The per-route matching contract, amended claim C3: a wildcard pattern
whose prefix matches and whose suffix is empty or matches yields the
positional capture when the request path is at least as long as prefix plus
suffix, and panics otherwise; in every other case the route still matches
(without capture) when the request path ends with the full literal pattern
text. -/
def route_step_spec (i : Route) (path : Str) (method : RouteMethod) : StepResult :=
  if i.method ≠ method then .next
  else
    match wildcard_parts i.path with
    | none => if i.path.isSuffixOf path then .found i none else .next
    | some (pre, suf) =>
      if pre.isPrefixOf path ∧ (suf = [] ∨ suf.isSuffixOf path) then
        if pre.length + suf.length ≤ path.length then
          .found i (some ((path.take (path.length - suf.length)).drop pre.length))
        else .panic
      else if i.path.isSuffixOf path then .found i none else .next

/-- First-match scan over `route_step_spec` (spec wording of the amended
matching contract). -/
def get_route_spec (routes : List Route) (path : Str) (method : RouteMethod) :
    Except Unit (Option Route × Option Str) :=
  match routes with
  | [] => .ok (none, none)
  | i :: rest =>
    match route_step_spec i path method with
    | .panic => .error ()
    | .found r cap => .ok (some r, cap)
    | .next => get_route_spec rest path method

/-- Rust `str::split(sep)` collected to a list: empty pieces are kept, and
splitting the empty string yields one empty piece. -/
def splitChar (sep : Char) : Str → List Str
  | [] => [[]]
  | c :: rest =>
    if c = sep then [] :: splitChar sep rest
    else
      match splitChar sep rest with
      | [] => [[c]]
      | h :: t => (c :: h) :: t

/-- `get_folders` in `storage.rs`: the text before the last `/`; a path
without a slash is returned whole. -/
def get_folders (path : Str) : Str :=
  match strRFind path '/' with
  | some index => path.take index
  | none => path

/-- `get_folders_to_check` in `storage.rs`: with `lft` the `/`-segments of
`folders`, for every `i` in `1..=lft.len()` join the first `i` segments,
putting a `/` after each segment except the last. -/
def get_folders_to_check (folders : Str) : List Str :=
  let lft := splitChar '/' folders
  (List.range' 1 lft.length).map (fun i =>
    (lft.enum.take i).foldl
      (fun check p => check ++ p.2 ++ if p.1 + 1 ≠ i then ['/'] else []) [])

/-- Spec wording: join segments with a slash separator. -/
def join_slash : List Str → Str
  | [] => []
  | [x] => x
  | x :: xs => x ++ ['/'] ++ join_slash xs

/-- Spec wording for C7: the `/`-separated prefixes of a path, shortest
first, up to and including the whole path. -/
def slash_prefixes (s : Str) : List Str :=
  let segs := splitChar '/' s
  (List.range segs.length).map (fun k => join_slash (segs.take (k + 1)))

/-- Modelled from the spec: the media-type → canonical-extension guess that
`get_extension` in `storage.rs` delegates to the external `mime` and
`mime_guess` crates (code not in this repository). Per the spec it is a pure
lookup in a static table from a normalized media-type string to an optional
canonical file extension. -/
def guess_extension (content_type : Str) : Option Str :=
  if content_type = str "application/json" then some (str "json")
  else if content_type = str "text/html" then some (str "html")
  else if content_type = str "text/plain" then some (str "txt")
  else none

/-- `get_extension` in `storage.rs`: when the `content-type` value contains a
`;`, keep only the part before the first `;`, then guess an extension. -/
def get_extension (content_type : Option Str) : Option Str :=
  match content_type with
  | none => none
  | some ct => guess_extension (if ct.contains ';' then ct.takeWhile (· ≠ ';') else ct)

/-- `headers.get("content-type")` on the request-header `HashMap`. -/
def headerLookup (headers : List (Str × Str)) (key : Str) : Option Str :=
  (headers.find? (fun p => p.1 == key)).map (·.2)

/-- `get_save_path` in `storage.rs`: root the uri under `./db`, append
`index` after a trailing slash, then append an extension unless the uri
already ended in `.txt` or `.json` (suffix `""`) or the path already ends
with the guessed extension; without a usable content-type append `.txt`. -/
def get_save_path (uri : Str) (headers : List (Str × Str)) : Str :=
  let file_suffix : Option Str :=
    if (str ".txt").isSuffixOf uri || (str ".json").isSuffixOf uri then some []
    else get_extension (headerLookup headers (str "content-type"))
  let path := str "./db" ++ uri
  let path := if ['/'].isSuffixOf path then path ++ str "index" else path
  match file_suffix with
  | some file_suffix =>
    if ¬ file_suffix.isSuffixOf path then path ++ ['.'] ++ file_suffix else path
  | none => path ++ str ".txt"

/-- One stored file: its bytes plus environment-fault flags under which the
corresponding `tokio::fs` call fails (modelling I/O errors such as
permission problems, surfaced in Rust as `std::io::Error`). -/
structure FileEntry where
  content : List Nat
  readFault : Bool := false
  removeFault : Bool := false
deriving DecidableEq

/-- The filesystem state threaded through `storage.rs`: a finite map from
paths to files, the set of directories, fault sets under which directory or
file creation fails, and a log of the performed `write_all` calls (newest
first). -/
structure Fs where
  files : List (Str × FileEntry)
  dirs : List Str := []
  dirFaults : List Str := []
  createFaults : List Str := []
  writeLog : List (Str × List Nat) := []
deriving DecidableEq

/-- Contents of the file at `p`, if any. -/
def Fs.lookupFile (fs : Fs) (p : Str) : Option FileEntry :=
  (fs.files.find? (fun q => q.1 == p)).map (·.2)

/-- `Path::is_file`. -/
def Fs.isFile (fs : Fs) (p : Str) : Bool :=
  (fs.lookupFile p).isSome

/-- `fs::read`: errors when `p` is not a file or on an injected read fault. -/
def Fs.read (fs : Fs) (p : Str) : Except Unit (List Nat) :=
  match fs.lookupFile p with
  | some e => if e.readFault then .error () else .ok e.content
  | none => .error ()

/-- `fs::remove_file`: errors when `p` is not a file or on an injected
fault; the state is unchanged on error. -/
def Fs.removeFile (fs : Fs) (p : Str) : Except Unit Fs :=
  match fs.lookupFile p with
  | some e =>
    if e.removeFault then .error ()
    else .ok { fs with files := fs.files.filter (fun q => !(q.1 == p)) }
  | none => .error ()

/-- Replace or insert the file at `p`. -/
def Fs.setFile (fs : Fs) (p : Str) (e : FileEntry) : Fs :=
  { fs with files := (p, e) :: fs.files.filter (fun q => !(q.1 == p)) }

/-- `fs::create_dir_all`: creates the directory and all its `/`-prefixes;
fails when one of those prefixes exists as a plain file, or on an injected
fault. -/
def Fs.createDirAll (fs : Fs) (p : Str) : Except Unit Fs :=
  if (get_folders_to_check p).any (fun q => fs.isFile q) then .error ()
  else if fs.dirFaults.contains p then .error ()
  else .ok { fs with dirs := get_folders_to_check p ++ fs.dirs }

/-- `File::create`: create or truncate the file at `p`; fails when `p` is a
directory or on an injected fault. -/
def Fs.createFile (fs : Fs) (p : Str) : Except Unit Fs :=
  if fs.dirs.contains p then .error ()
  else if fs.createFaults.contains p then .error ()
  else .ok (fs.setFile p { content := [] })

/-- `write_all` on a freshly created file: replace the contents and log the
write. -/
def Fs.writeAll (fs : Fs) (p : Str) (bytes : List Nat) : Fs :=
  { fs.setFile p { content := bytes } with writeLog := (p, bytes) :: fs.writeLog }

/-- `folder_check` in `storage.rs`. The result of `fs::read` is captured in
`prefious_file` and not propagated with `?`: a read error is silently
swallowed, and the promotion continues with an index file that is created
but never written. On error the filesystem reached so far is returned with
the error (Rust mutates the real filesystem in place). -/
def folder_check (folder : Str) (fs : Fs) : Except Unit (Option Str) × Fs :=
  if fs.isFile folder then
    let prefious_file := fs.read folder
    match fs.removeFile folder with
    | .error e => (.error e, fs)
    | .ok fs =>
      match fs.createDirAll folder with
      | .error e => (.error e, fs)
      | .ok fs =>
        let path := folder ++ str "/index"
        match fs.createFile path with
        | .error e => (.error e, fs)
        | .ok fs =>
          match prefious_file with
          | .ok bytes => (.ok (some path), fs.writeAll path bytes)
          | .error _ => (.ok (some path), fs)
  else (.ok none, fs)

/-- The loop of `check_existing_file` in `storage.rs` over the candidate
ancestor list, accumulating the renames in order. -/
def check_existing_file_go (folders : List Str) (fs : Fs) :
    Except Unit (List (Str × Str)) × Fs :=
  match folders with
  | [] => (.ok [], fs)
  | f :: rest =>
    match folder_check f fs with
    | (.error e, fs) => (.error e, fs)
    | (.ok none, fs) => check_existing_file_go rest fs
    | (.ok (some c), fs) =>
      match check_existing_file_go rest fs with
      | (.error e, fs) => (.error e, fs)
      | (.ok changes, fs) => (.ok ((f, c) :: changes), fs)

/-- `check_existing_file` in `storage.rs`: run `folder_check` on every
`/`-prefix of `folders`, shortest first, collecting the renames. -/
def check_existing_file (folders : Str) (fs : Fs) :
    Except Unit (List (Str × Str)) × Fs :=
  check_existing_file_go (get_folders_to_check folders) fs

/-- `save_file` in `storage.rs`. -/
def save_file (location : Str) (body : List Nat) (folder : Str) (fs : Fs) :
    Except Unit Unit × Fs :=
  match fs.createDirAll folder with
  | .error e => (.error e, fs)
  | .ok fs =>
    match fs.createFile location with
    | .error e => (.error e, fs)
    | .ok fs => (.ok (), fs.writeAll location body)

/-- The `for (from, to) in resource_changes` loop of `save`: each rename
repoints (at most) the first route found by `get_route_by_resource_mut`. -/
def apply_resource_changes (routes : List Route) (changes : List (Str × Str))
    (method : RouteMethod) : List Route :=
  changes.foldl (fun rs c => update_first_resource rs c.1 c.2 method) routes

/-- The state touched by `save`: the locked configuration, the filesystem,
and the log of configurations handed to `save_configuration` (newest
first). -/
structure World where
  config : Configuration
  fs : Fs
  persistLog : List Configuration := []
deriving DecidableEq

/-- `save` in `storage.rs`. The new route is built as in the source
(`path` = the request uri, `resource` = the derived file path; the `Option`
wrapper and the `messages` field that `storage.rs` mentions are elided to
match the `Route` declared in `configuration.rs`). `save_configuration` is
modelled as appending to the persist log. On error the configuration
mutations already performed remain in place, as they do behind the Rust
mutex guard. -/
def save (method : RouteMethod) (uri : Str) (body : List Nat)
    (headers : List (Str × Str)) (w : World) : Except Unit Unit × World :=
  let path := get_save_path uri headers
  match w.config.get_route path method with
  | some _ => (.ok (), w)
  | none =>
    let route : Route := { method := method, resource := path, path := uri }
    let config := { w.config with routes := w.config.routes ++ [route] }
    let folders := get_folders path
    match check_existing_file folders w.fs with
    | (.error e, fs) => (.error e, { w with config := config, fs := fs })
    | (.ok resource_changes, fs) =>
      let config :=
        { config with
          routes := apply_resource_changes config.routes resource_changes method }
      match save_file path body folders fs with
      | (.error e, fs) => (.error e, { w with config := config, fs := fs })
      | (.ok _, fs) =>
        (.ok (), { config := config, fs := fs, persistLog := config :: w.persistLog })

/-- Outcome of `fs::read_to_string("./moxy.json")` at startup. -/
inductive ReadOutcome
  | ok (data : Str)
  | notFound
  | otherError
deriving DecidableEq

/-- The default `Configuration` built in the `Err` branch of
`load_configuration` in `configuration.rs`. -/
def default_configuration : Configuration :=
  { host := some (str "127.0.0.1:8080"), remote := some (str "http://localhost"),
    build_mode := some BuildMode.Write, routes := [] }

/-- The fallback `Configuration` built in the parse-failure branch of
`load_configuration` in `configuration.rs`: note `build_mode` is `None`
there, unlike the absent-file default. -/
def fallback_configuration : Configuration :=
  { host := some (str "127.0.0.1:8080"), remote := some (str "http://localhost"),
    build_mode := none, routes := [] }

/-- `load_configuration` in `configuration.rs`, with the `serde_json` parse
(external crate) abstracted as a `parse` argument. Returns the resulting
configuration, whether `save_configuration` was called, and whether any file
was deleted (the function never deletes a file). -/
def load_configuration (readResult : ReadOutcome) (parse : Str → Option Configuration) :
    Configuration × Bool × Bool :=
  match readResult with
  | .ok data =>
    match parse data with
    | some c => (c, false, false)
    | none => (fallback_configuration, false, false)
  | .notFound => (default_configuration, true, false)
  | .otherError => (default_configuration, false, false)

/-- The upstream response produced by `fetch_http` (`ResourceData` in
`core.rs`); headers are opaque key/value pairs. -/
structure ResourceData where
  method : RouteMethod
  headers : List (Str × Str)
  code : Nat
  payload : Option (List Nat)
deriving DecidableEq

/-- Observable outcome of `build_response`: the HTTP response returned to
the client, whether the upstream was contacted, and whether `storage::save`
was invoked. -/
structure BuildOutcome where
  code : Nat
  headers : List (Str × Str)
  body : Option (List Nat)
  contacted : Bool
  persisted : Bool
deriving DecidableEq

/-- `build_response` in `core.rs`, with the upstream fetch abstracted as an
oracle `fetch` consulted exactly where the code awaits `fetch_http`, and the
`storage::save` call recorded in the `persisted` flag. -/
def build_response (config : Configuration) (fetch : Option ResourceData) : BuildOutcome :=
  match config.build_mode with
  | none => { code := 404, headers := [], body := none, contacted := false, persisted := false }
  | some build_mode =>
    match config.remote with
    | none => { code := 404, headers := [], body := none, contacted := false, persisted := false }
    | some _ =>
      match fetch with
      | none => { code := 404, headers := [], body := none, contacted := true, persisted := false }
      | some response =>
        match response.payload with
        | none =>
          { code := response.code, headers := response.headers, body := none,
            contacted := true, persisted := false }
        | some body =>
          if response.code ≠ 404 ∧ build_mode = BuildMode.Write then
            { code := response.code, headers := response.headers, body := some body,
              contacted := true, persisted := true }
          else
            { code := response.code, headers := response.headers, body := some body,
              contacted := true, persisted := false }

/-- Claim C6's wording of the dispatcher record path. -/
def dispatch_spec (config : Configuration) (fetch : Option ResourceData) : BuildOutcome :=
  if config.build_mode = none ∨ config.remote = none then
    { code := 404, headers := [], body := none, contacted := false, persisted := false }
  else
    match fetch with
    | none => { code := 404, headers := [], body := none, contacted := true, persisted := false }
    | some r =>
      { code := r.code, headers := r.headers, body := r.payload, contacted := true,
        persisted :=
          if r.payload.isSome ∧ r.code ≠ 404 ∧ config.build_mode = some BuildMode.Write then
            true
          else false }

/-- Empty starting world for the concrete recording scenarios: no routes, no
files, recording enabled. -/
def empty_world : World :=
  { config := { host := none, remote := none, build_mode := some BuildMode.Write, routes := [] },
    fs := { files := [] } }

/-- World after recording `GET /api/svc/results` with body `[1]` (claim C1's
literal scenario). -/
def c1_world_1 : World :=
  (save RouteMethod.GET (str "/api/svc/results") [1] [] empty_world).2

/-- World after additionally recording `GET /api/svc/results/detail` with
body `[2]`. -/
def c1_world_2 : World :=
  (save RouteMethod.GET (str "/api/svc/results/detail") [2] [] c1_world_1).2

/-- World after recording `GET /api/svc/results.txt` with body `[1]` (the
scenario of amended claim C1, where the two derived paths really collide). -/
def c1_amended_world_1 : World :=
  (save RouteMethod.GET (str "/api/svc/results.txt") [1] [] empty_world).2

/-- World after additionally recording `GET /api/svc/results.txt/detail`
with body `[2]`. -/
def c1_amended_world_2 : World :=
  (save RouteMethod.GET (str "/api/svc/results.txt/detail") [2] [] c1_amended_world_1).2

/-- World after recording `GET /a` with body `[7]` once (claim C2). -/
def c2_world_1 : World :=
  (save RouteMethod.GET (str "/a") [7] [] empty_world).2

/-- World after recording `GET /a` with body `[7]` twice (claim C2). -/
def c2_world_2 : World :=
  (save RouteMethod.GET (str "/a") [7] [] c2_world_1).2

/-- Starting world for claim C4: two distinct recorded routes
(`/a/` and `/a/index`) sharing the resource `./db/a/index.txt`, which exists
as a file. -/
def c4_world : World :=
  { config :=
      { host := none, remote := none, build_mode := some BuildMode.Write,
        routes :=
          [{ method := RouteMethod.GET, path := str "/a/", resource := str "./db/a/index.txt" },
           { method := RouteMethod.GET, path := str "/a/index",
             resource := str "./db/a/index.txt" }] },
    fs := { files := [(str "./db/a/index.txt", { content := [1] })] } }

/-- Claim C5: a file whose `fs::read` fails. -/
def c5_read_fs : Fs :=
  { files := [(str "./db/x", { content := [3], readFault := true })] }

/-- Claim C5: a file whose `fs::remove_file` fails. -/
def c5_remove_fs : Fs :=
  { files := [(str "./db/x", { content := [3], removeFault := true })] }

/-- Claim C5: `fs::create_dir_all` fails at the promoted position. -/
def c5_dir_fs : Fs :=
  { files := [(str "./db/x", { content := [3] })], dirFaults := [str "./db/x"] }

/-- Claim C5: `File::create` of the index file fails. -/
def c5_create_fs : Fs :=
  { files := [(str "./db/x", { content := [3] })], createFaults := [str "./db/x/index"] }

/-- Claim C5: two colliding ancestors; promoting the first succeeds, deleting
the second fails. -/
def c5_chain_fs : Fs :=
  { files := [(str "./db/a", { content := [1] }),
              (str "./db/a/b", { content := [2], removeFault := true })] }

/-! Theorems. -/

/-- Claim C10 (code_bug): the route matcher is not total. For the wildcard
pattern `/ab$$$bcd` and request path `/abcd`, the prefix `/ab` matches and
the suffix `bcd` matches, but the captured-segment slice is
`&path[3..2]`, whose start exceeds its end: the Rust code panics, modelled
here as `Except.error`. -/
theorem get_route_panics_on_short_overlap :
    get_route [{ method := RouteMethod.GET, path := str "/ab$$$bcd", resource := str "r" }]
      (str "/abcd") RouteMethod.GET = .error () := by decide

/-- Claim C2 (code_bug): `save` is not idempotent. The existence guard
`config.get_route(&path, method)` compares the derived file path against the
stored route patterns (which hold request uris), so it never fires: saving
`GET /a` twice from an empty world succeeds, inserts two identical route
entries, and performs the fixture file write twice. -/
theorem save_not_idempotent :
    (save RouteMethod.GET (str "/a") [7] [] c2_world_1).1 = .ok () ∧
    c2_world_2.config.routes.length = 2 ∧
    c2_world_2.fs.writeLog.length = 2 ∧
    c2_world_2.config.routes =
      [{ method := RouteMethod.GET, path := str "/a", resource := str "./db/a.txt" },
       { method := RouteMethod.GET, path := str "/a", resource := str "./db/a.txt" }] := by
  decide

/-- Claim C9, counterexample: a malformed configuration file does not fall
back to the same default as an absent file. The parse-failure fallback has
`build_mode = None`, while the absent-file default has
`build_mode = Some(Write)`. -/
theorem load_configuration_malformed_not_default :
    (load_configuration (.ok (str "garbage")) (fun _ => none)).1.build_mode = none ∧
    default_configuration.build_mode = some BuildMode.Write := by decide

/-- Claim C9, amended: when the file is absent the default configuration
(`host = 127.0.0.1:8080`, `remote = http://localhost`,
`build_mode = Write`, no routes) is returned and immediately persisted; when
the file exists but is malformed, loading falls back to that configuration
with `build_mode` unset instead of `Write`, persists nothing, and deletes
nothing. -/
theorem load_configuration_spec (parse : Str → Option Configuration) (s : Str)
    (hparse : parse s = none) :
    load_configuration (.ok s) parse = (fallback_configuration, false, false) ∧
    load_configuration .notFound parse = (default_configuration, true, false) ∧
    fallback_configuration =
      { default_configuration with build_mode := none } := by
  refine ⟨?_, rfl, by decide⟩
  simp [load_configuration, hparse]

/-- Witness for `load_configuration_spec` at a concrete failing parser. -/
theorem load_configuration_spec_witness :
    load_configuration (.ok (str "oops")) (fun _ => none) = (fallback_configuration, false, false) ∧
    load_configuration .notFound (fun _ => none) = (default_configuration, true, false) ∧
    fallback_configuration = { default_configuration with build_mode := none } :=
  load_configuration_spec (fun _ => none) (str "oops") rfl

/-- Claim C5, counterexample: a filesystem error in the read step does NOT
abort the resolve. With a read fault on `./db/x`, `folder_check` still
returns success with the rename, the original bytes `[3]` are discarded,
and the created `./db/x/index` is left empty. -/
theorem folder_check_swallows_read_error :
    (folder_check (str "./db/x") c5_read_fs).1 = .ok (some (str "./db/x/index")) ∧
    (folder_check (str "./db/x") c5_read_fs).2.lookupFile (str "./db/x/index") =
      some { content := [] } ∧
    (folder_check (str "./db/x") c5_read_fs).2.isFile (str "./db/x") = false := by
  decide

/-- Claim C5, amended: an error in the delete step aborts the resolve with
the error and an unchanged filesystem; an error in either create step
(directory or index file) aborts with the error but only after the original
file has already been deleted, so its bytes are lost; a read error does not
abort at all (the file is replaced by a directory with an empty index); and
promotions of earlier ancestors completed before a failing ancestor are not
rolled back. -/
theorem folder_check_error_behaviour :
    (folder_check (str "./db/x") c5_remove_fs).1 = .error () ∧
    (folder_check (str "./db/x") c5_remove_fs).2 = c5_remove_fs ∧
    (folder_check (str "./db/x") c5_dir_fs).1 = .error () ∧
    (folder_check (str "./db/x") c5_dir_fs).2.lookupFile (str "./db/x") = none ∧
    (folder_check (str "./db/x") c5_dir_fs).2.lookupFile (str "./db/x/index") = none ∧
    (folder_check (str "./db/x") c5_create_fs).1 = .error () ∧
    (folder_check (str "./db/x") c5_create_fs).2.lookupFile (str "./db/x") = none ∧
    (check_existing_file (str "./db/a/b") c5_chain_fs).1 = .error () ∧
    (check_existing_file (str "./db/a/b") c5_chain_fs).2.lookupFile (str "./db/a/index") =
      some { content := [1] } ∧
    (check_existing_file (str "./db/a/b") c5_chain_fs).2.isFile (str "./db/a") = false ∧
    (check_existing_file (str "./db/a/b") c5_chain_fs).2.dirs.contains (str "./db/a") = true ∧
    (check_existing_file (str "./db/a/b") c5_chain_fs).2.isFile (str "./db/a/b") = true := by
  decide

/-- Claim C4, counterexample: when two routes share the resource
`./db/a/index.txt` and a deeper recording promotes that file, only the first
matching route is repointed; the second keeps the old resource, which is now
a directory (and no longer a file). -/
theorem save_repoints_only_first_route :
    (save RouteMethod.GET (str "/a/index.txt/z") [9] [] c4_world).1 = .ok () ∧
    (save RouteMethod.GET (str "/a/index.txt/z") [9] [] c4_world).2.config.routes.map
        Route.resource =
      [str "./db/a/index.txt/index", str "./db/a/index.txt", str "./db/a/index.txt/z.txt"] ∧
    (save RouteMethod.GET (str "/a/index.txt/z") [9] [] c4_world).2.fs.isFile
        (str "./db/a/index.txt") = false ∧
    (save RouteMethod.GET (str "/a/index.txt/z") [9] [] c4_world).2.fs.dirs.contains
        (str "./db/a/index.txt") = true := by
  decide

/-- Claim C1, counterexample: the spec's literal scenario does not promote
anything. Recording `GET /api/svc/results` stores the fixture at
`./db/api/svc/results.txt` (with extension), so the later recording of
`GET /api/svc/results/detail` finds no file at `./db/api/svc/results`: no
`./db/api/svc/results/index.txt` is created and the first route's resource
is left unchanged. -/
theorem save_scenario_no_promotion :
    (save RouteMethod.GET (str "/api/svc/results/detail") [2] [] c1_world_1).1 = .ok () ∧
    c1_world_2.fs.lookupFile (str "./db/api/svc/results/index.txt") = none ∧
    c1_world_2.fs.lookupFile (str "./db/api/svc/results/index") = none ∧
    c1_world_2.config.routes.map Route.resource =
      [str "./db/api/svc/results.txt", str "./db/api/svc/results/detail.txt"] := by
  decide

/-- Claim C6 (confirmed): the dispatcher record path. With no build mode or
no remote, respond 404 without contacting the upstream; with no upstream
response, respond 404 persisting nothing; with a body-less upstream
response, pass status and headers through persisting nothing; persist
exactly when a body is present, the status is not 404, and the build mode
is Write — and in every upstream-responded case return the upstream status,
headers, and body unchanged. -/
theorem build_response_eq_dispatch_spec (config : Configuration) (fetch : Option ResourceData) :
    build_response config fetch = dispatch_spec config fetch := by
  obtain ⟨h, rem, bm, rts⟩ := config
  cases bm with
  | none => cases rem <;> cases fetch <;> simp [build_response, dispatch_spec]
  | some m =>
    cases rem with
    | none => cases fetch <;> simp [build_response, dispatch_spec]
    | some r =>
      cases fetch with
      | none => simp [build_response, dispatch_spec]
      | some resp =>
        obtain ⟨rm, rh, rc, rp⟩ := resp
        cases rp with
        | none => simp [build_response, dispatch_spec]
        | some body =>
          by_cases hc : rc = 404
          · subst hc
            cases m <;> simp [build_response, dispatch_spec]
          · cases m <;> simp [build_response, dispatch_spec, hc]

/-- Claim C4, amended: each rename produced by collision resolution repoints
only the FIRST route (in table order) whose resource equals the old path for
the method; routes with no match are left untouched, and any further route
sharing that resource keeps the stale old path. -/
theorem update_first_resource_spec :
    (∀ (rs : List Route) (frm dst : Str) (m : RouteMethod),
        (∀ r ∈ rs, ¬(r.resource = frm ∧ r.method = m)) →
        update_first_resource rs frm dst m = rs) ∧
    (∀ (rs post : List Route) (r : Route) (frm dst : Str) (m : RouteMethod),
        (∀ q ∈ rs, ¬(q.resource = frm ∧ q.method = m)) →
        r.resource = frm → r.method = m →
        update_first_resource (rs ++ r :: post) frm dst m =
          rs ++ { r with resource := dst } :: post) := by
  constructor
  · intro rs frm dst m hnone
    induction rs with
    | nil => rfl
    | cons a t ih =>
      have ha := hnone a (List.mem_cons_self a t)
      have hcond : ¬((a.resource == frm && a.method == m) = true) := by
        simp only [Bool.and_eq_true, beq_iff_eq]
        exact ha
      simp only [update_first_resource, if_neg hcond]
      rw [ih (fun q hq => hnone q (List.mem_cons_of_mem _ hq))]
  · intro rs post r frm dst m hnone hr hm
    induction rs with
    | nil =>
      have hcond : (r.resource == frm && r.method == m) = true := by
        simp only [Bool.and_eq_true, beq_iff_eq]
        exact ⟨hr, hm⟩
      simp only [List.nil_append, update_first_resource, if_pos hcond]
    | cons a t ih =>
      have ha := hnone a (List.mem_cons_self a t)
      have hcond : ¬((a.resource == frm && a.method == m) = true) := by
        simp only [Bool.and_eq_true, beq_iff_eq]
        exact ha
      simp only [List.cons_append, update_first_resource, if_neg hcond, List.append_eq]
      rw [ih (fun q hq => hnone q (List.mem_cons_of_mem _ hq))]

/-- Witness for `update_first_resource_spec` at a concrete route table with
two routes sharing the resource `F`: only the first is repointed. -/
theorem update_first_resource_spec_witness :
    update_first_resource
        ([{ method := RouteMethod.GET, path := str "/q", resource := str "R" }] ++
          { method := RouteMethod.GET, path := str "/r", resource := str "F" } ::
            [{ method := RouteMethod.GET, path := str "/s", resource := str "F" }])
        (str "F") (str "T") RouteMethod.GET =
      [{ method := RouteMethod.GET, path := str "/q", resource := str "R" }] ++
        { method := RouteMethod.GET, path := str "/r", resource := str "T" } ::
          [{ method := RouteMethod.GET, path := str "/s", resource := str "F" }] :=
  update_first_resource_spec.2 _ _ _ _ _ _ (by decide) rfl rfl

/-- `splitChar` never returns the empty list. -/
theorem splitChar_ne_nil (sep : Char) (s : Str) : splitChar sep s ≠ [] := by
  cases s with
  | nil => simp [splitChar]
  | cons c rest =>
    by_cases h : c = sep
    · simp [splitChar, h]
    · simp only [splitChar, if_neg h]
      cases hrec : splitChar sep rest <;> simp

/-- Joining the `/`-split of a string with `/` restores the string. -/
theorem join_slash_splitChar (s : Str) : join_slash (splitChar '/' s) = s := by
  induction s with
  | nil => rfl
  | cons c rest ih =>
    by_cases h : c = '/'
    · subst h
      simp only [splitChar, if_pos rfl]
      cases hrec : splitChar '/' rest with
      | nil => exact absurd hrec (splitChar_ne_nil _ _)
      | cons h1 t1 =>
        rw [hrec] at ih
        show [] ++ ['/'] ++ join_slash (h1 :: t1) = '/' :: rest
        rw [ih]
        rfl
    · simp only [splitChar, if_neg h]
      cases hrec : splitChar '/' rest with
      | nil => exact absurd hrec (splitChar_ne_nil _ _)
      | cons h1 t1 =>
        rw [hrec] at ih
        cases t1 with
        | nil =>
          show c :: h1 = c :: rest
          have ih' : h1 = rest := ih
          rw [ih']
        | cons h2 t2 =>
          show (c :: h1) ++ ['/'] ++ join_slash (h2 :: t2) = c :: rest
          have ih' : h1 ++ ['/'] ++ join_slash (h2 :: t2) = rest := ih
          simp only [List.cons_append]
          rw [ih']

/-- Taking from an enumeration enumerates the taken list. -/
theorem enumFrom_take {α : Type} (l : List α) (j i : Nat) :
    (List.enumFrom j l).take i = List.enumFrom j (l.take i) := by
  induction l generalizing j i with
  | nil => simp
  | cons a t ih =>
    cases i with
    | zero => simp
    | succ i' =>
      show (j, a) :: (List.enumFrom (j + 1) t).take i' =
        (j, a) :: List.enumFrom (j + 1) (t.take i')
      rw [ih (j + 1) i']

/-- The index-cutoff fold of `get_folders_to_check` joins the enumerated
segments with slashes. -/
theorem enumFrom_foldl_join (ys : List Str) (j : Nat) (acc : Str) (n : Nat)
    (hn : j + ys.length = n) (hne : ys ≠ []) :
    (List.enumFrom j ys).foldl
        (fun check p => check ++ p.2 ++ if p.1 + 1 ≠ n then ['/'] else []) acc =
      acc ++ join_slash ys := by
  induction ys generalizing j acc with
  | nil => exact absurd rfl hne
  | cons x xs ih =>
    cases xs with
    | nil =>
      simp only [List.enumFrom, List.foldl]
      have hj : j + 1 = n := by simpa using hn
      rw [if_neg (by omega)]
      show acc ++ x ++ [] = acc ++ join_slash [x]
      simp [join_slash]
    | cons y ys' =>
      rw [show List.enumFrom j (x :: y :: ys') = (j, x) :: List.enumFrom (j + 1) (y :: ys')
            from rfl,
        List.foldl_cons]
      have hj : j + 1 ≠ n := by
        simp only [List.length_cons] at hn
        omega
      show List.foldl _ (acc ++ x ++ if j + 1 ≠ n then ['/'] else []) _ = _
      rw [if_pos hj]
      rw [ih (j + 1) (acc ++ x ++ ['/'])
        (by simp only [List.length_cons] at hn ⊢; omega) (List.cons_ne_nil _ _)]
      show acc ++ x ++ ['/'] ++ join_slash (y :: ys') =
        acc ++ (x ++ ['/'] ++ join_slash (y :: ys'))
      simp [List.append_assoc]

/-- The implementation's ancestor enumeration equals the spec's
slash-prefix list. -/
theorem get_folders_to_check_eq_slash_prefixes (s : Str) :
    get_folders_to_check s = slash_prefixes s := by
  show (List.range' 1 (splitChar '/' s).length).map
      (fun i => (((splitChar '/' s).enum).take i).foldl
        (fun check p => check ++ p.2 ++ if p.1 + 1 ≠ i then ['/'] else []) []) =
    (List.range (splitChar '/' s).length).map
      (fun k => join_slash ((splitChar '/' s).take (k + 1)))
  rw [List.range'_eq_map_range, List.map_map]
  refine List.map_congr_left ?_
  intro k hk
  have hk' : k < (splitChar '/' s).length := List.mem_range.mp hk
  show (((splitChar '/' s).enum).take (1 + k)).foldl _ [] =
    join_slash ((splitChar '/' s).take (k + 1))
  rw [show List.enum (splitChar '/' s) = List.enumFrom 0 (splitChar '/' s) from rfl]
  rw [enumFrom_take]
  have hlen : ((splitChar '/' s).take (1 + k)).length = 1 + k := by
    rw [List.length_take]
    omega
  have hne : (splitChar '/' s).take (1 + k) ≠ [] := by
    intro hcontra
    rw [hcontra] at hlen
    simp only [List.length_nil] at hlen
    omega
  rw [enumFrom_foldl_join ((splitChar '/' s).take (1 + k)) 0 [] (1 + k)
    (by rw [hlen]; omega) hne]
  rw [List.nil_append, Nat.add_comm 1 k]

/-- The last checked candidate is the full handed path itself. -/
theorem get_folders_to_check_getLast (s : Str) :
    (get_folders_to_check s).getLast? = some s := by
  rw [get_folders_to_check_eq_slash_prefixes]
  show ((List.range (splitChar '/' s).length).map
      (fun k => join_slash ((splitChar '/' s).take (k + 1)))).getLast? = some s
  obtain ⟨m, hm⟩ : ∃ m, (splitChar '/' s).length = m + 1 := by
    cases h : (splitChar '/' s).length with
    | zero => exact absurd (List.length_eq_zero.mp h) (splitChar_ne_nil '/' s)
    | succ m => exact ⟨m, rfl⟩
  rw [hm, List.range_succ, List.map_append]
  show (_ ++ [join_slash ((splitChar '/' s).take (m + 1))]).getLast? = some s
  rw [List.getLast?_concat]
  rw [← hm, List.take_length, join_slash_splitChar]

/-- Claim C7 (confirmed): for every full target path handed to collision
resolution, the ordered candidate list is exactly the `/`-separated prefixes
of that path, shortest first, up to and including the path itself; on
`./db/api/svc/user/x` it is the spec's six-element list. -/
theorem ancestor_enumeration_spec :
    (∀ s, get_folders_to_check s = slash_prefixes s) ∧
    (∀ s, (get_folders_to_check s).getLast? = some s) ∧
    get_folders_to_check (str "./db/api/svc/user/x") =
      [str ".", str "./db", str "./db/api", str "./db/api/svc",
       str "./db/api/svc/user", str "./db/api/svc/user/x"] :=
  ⟨get_folders_to_check_eq_slash_prefixes, get_folders_to_check_getLast, by decide⟩

/-- A list is a Boolean prefix of itself followed by anything. -/
theorem isPrefixOf_append_self (p t : Str) : p.isPrefixOf (p ++ t) = true := by
  rw [List.isPrefixOf_iff_prefix]
  exact List.prefix_append p t

/-- Boolean prefixes are stable under appending on the right. -/
theorem isPrefixOf_append_left {p l : Str} (t : Str) (h : p.isPrefixOf l = true) :
    p.isPrefixOf (l ++ t) = true := by
  rw [List.isPrefixOf_iff_prefix] at h ⊢
  exact h.trans (List.prefix_append l t)

/-- A list is a Boolean suffix of anything followed by itself. -/
theorem isSuffixOf_append_self (p l : Str) : p.isSuffixOf (l ++ p) = true := by
  rw [List.isSuffixOf_iff_suffix]
  exact List.suffix_append l p

/-- Appending a nonempty list yields a nonempty list. -/
theorem append_ne_nil_right (l t : Str) (ht : t ≠ []) : l ++ t ≠ [] := by
  intro h
  exact ht (List.append_eq_nil.mp h).2

/-- A nonempty Boolean suffix shares the last element. -/
theorem getLast_eq_of_isSuffixOf {p l : Str} (h : p.isSuffixOf l = true) (hp : p ≠ []) :
    l.getLast? = p.getLast? := by
  rw [List.isSuffixOf_iff_suffix] at h
  obtain ⟨t, ht⟩ := h
  rw [← ht]
  exact List.getLast?_append_of_ne_nil t hp

/-- Lists with different last elements are not Boolean suffixes of each
other. -/
theorem isSuffixOf_eq_false_of_last_ne {p l : Str} {c d : Char}
    (hp : p.getLast? = some c) (hl : l.getLast? = some d) (hne : c ≠ d) :
    p.isSuffixOf l = false := by
  cases hs : p.isSuffixOf l with
  | false => rfl
  | true =>
    have hpne : p ≠ [] := by
      intro hcontra
      rw [hcontra] at hp
      simp at hp
    have := getLast_eq_of_isSuffixOf hs hpne
    rw [hp, hl] at this
    exact absurd (Option.some.inj this).symm hne

/-- Claim C8 (confirmed): path derivation. It is deterministic; every result
is rooted under `./db`; a uri ending in `/` (without a usable content-type)
derives a path ending in `/index.txt`; a uri already ending in `.txt` or
`.json` is kept verbatim under `./db` with no extra suffix; and
`/api/svc/x` with no content-type derives a path ending in `.txt`. -/
theorem get_save_path_spec :
    (∀ u h, get_save_path u h = get_save_path u h) ∧
    (∀ u h, (str "./db").isPrefixOf (get_save_path u h) = true) ∧
    (∀ u, (str "/index.txt").isSuffixOf (get_save_path (u ++ ['/']) []) = true) ∧
    (∀ u h, get_save_path (u ++ str ".txt") h = str "./db" ++ u ++ str ".txt") ∧
    (∀ u h, get_save_path (u ++ str ".json") h = str "./db" ++ u ++ str ".json") ∧
    (str ".txt").isSuffixOf (get_save_path (str "/api/svc/x") []) = true := by
  refine ⟨fun u h => rfl, ?_, ?_, ?_, ?_, by decide⟩
  · intro u h
    simp only [get_save_path]
    split <;> split <;> (try split) <;>
      repeat (first | exact isPrefixOf_append_self _ _ | apply isPrefixOf_append_left)
  · intro u
    have h1 : (str ".txt").isSuffixOf (u ++ ['/']) = false :=
      isSuffixOf_eq_false_of_last_ne (c := 't') (d := '/') (by decide)
        (List.getLast?_concat u) (by decide)
    have h2 : (str ".json").isSuffixOf (u ++ ['/']) = false :=
      isSuffixOf_eq_false_of_last_ne (c := 'n') (d := '/') (by decide)
        (List.getLast?_concat u) (by decide)
    have h3 : ['/'].isSuffixOf (str "./db" ++ (u ++ ['/'])) = true := by
      rw [← List.append_assoc]
      exact isSuffixOf_append_self _ _
    simp only [get_save_path, h1, h2, Bool.or_self, Bool.false_eq_true, if_false,
      headerLookup, List.find?_nil, Option.map_none', get_extension, h3, if_true]
    rw [show ((str "./db" ++ (u ++ ['/'])) ++ str "index") ++ str ".txt" =
          (str "./db" ++ u) ++ str "/index.txt" by
        simp only [List.append_assoc]
        rfl]
    exact isSuffixOf_append_self _ _
  · intro u h
    have h1 : (str ".txt").isSuffixOf (u ++ str ".txt") = true := isSuffixOf_append_self _ _
    have hne : u ++ str ".txt" ≠ [] := append_ne_nil_right u _ (by decide)
    have h2 : ['/'].isSuffixOf (str "./db" ++ (u ++ str ".txt")) = false := by
      refine isSuffixOf_eq_false_of_last_ne (c := '/') (d := 't') (by decide) ?_ (by decide)
      rw [List.getLast?_append_of_ne_nil _ hne,
        List.getLast?_append_of_ne_nil _ (show str ".txt" ≠ [] by decide)]
      decide
    simp only [get_save_path, h1, Bool.true_or, if_true, h2, Bool.false_eq_true, if_false]
    rw [if_neg (by simp [List.isSuffixOf])]
    rw [List.append_assoc]
  · intro u h
    have h0 : (str ".txt").isSuffixOf (u ++ str ".json") = false := by
      refine isSuffixOf_eq_false_of_last_ne (c := 't') (d := 'n') (by decide) ?_ (by decide)
      rw [List.getLast?_append_of_ne_nil _ (show str ".json" ≠ [] by decide)]
      decide
    have h1 : (str ".json").isSuffixOf (u ++ str ".json") = true := isSuffixOf_append_self _ _
    have hne : u ++ str ".json" ≠ [] := append_ne_nil_right u _ (by decide)
    have h2 : ['/'].isSuffixOf (str "./db" ++ (u ++ str ".json")) = false := by
      refine isSuffixOf_eq_false_of_last_ne (c := '/') (d := 'n') (by decide) ?_ (by decide)
      rw [List.getLast?_append_of_ne_nil _ hne,
        List.getLast?_append_of_ne_nil _ (show str ".json" ≠ [] by decide)]
      decide
    simp only [get_save_path, h0, h1, Bool.false_or, if_true, h2, Bool.false_eq_true, if_false]
    rw [if_neg (by simp [List.isSuffixOf])]
    rw [List.append_assoc]

/-- A successful `strFind` locates an occurrence: the pattern is a prefix of
the remainder at the reported position. -/
theorem strFind_isPrefixOf {hay pat : Str} {i : Nat} (h : strFind hay pat = some i) :
    pat.isPrefixOf (hay.drop i) = true := by
  induction hay generalizing i with
  | nil =>
    simp only [strFind] at h
    split at h
    · cases h
      next hemp =>
        have hpat : pat = [] := by simpa using hemp
        simp [hpat]
    · cases h
  | cons a t ih =>
    simp only [strFind] at h
    split at h
    · next hpre =>
      cases h
      simpa using hpre
    · cases hf : strFind t pat with
      | none => rw [hf] at h; cases h
      | some j =>
        rw [hf] at h
        simp only [Option.map_some'] at h
        cases h
        simpa using ih hf

/-- A successful `strFind` position never exceeds the string length. -/
theorem strFind_le {hay pat : Str} {i : Nat} (h : strFind hay pat = some i) :
    i ≤ hay.length := by
  induction hay generalizing i with
  | nil =>
    simp only [strFind] at h
    split at h
    · cases h; simp
    · cases h
  | cons a t ih =>
    simp only [strFind] at h
    split at h
    · cases h; simp
    · cases hf : strFind t pat with
      | none => rw [hf] at h; cases h
      | some j =>
        rw [hf] at h
        simp only [Option.map_some'] at h
        cases h
        have := ih hf
        simp only [List.length_cons]
        omega

/-- A successful `strFind` occurrence fits inside the string. -/
theorem strFind_le_length {hay pat : Str} {i : Nat} (h : strFind hay pat = some i) :
    i + pat.length ≤ hay.length := by
  have hp := strFind_isPrefixOf h
  rw [List.isPrefixOf_iff_prefix] at hp
  have hlen := hp.length_le
  rw [List.length_drop] at hlen
  have := strFind_le h
  omega

/-- The loop body of the matcher coincides with the amended spec's per-route
contract. -/
theorem route_step_eq_spec (i : Route) (path : Str) (method : RouteMethod) :
    route_step i path method = route_step_spec i path method := by
  by_cases hm : i.method = method
  case neg => simp [route_step, route_step_spec, hm]
  case pos =>
    cases hfind : strFind i.path wildcard with
    | none => simp [route_step, route_step_spec, wildcard_parts, hfind, hm]
    | some index =>
      have hle : index + 3 ≤ i.path.length := by
        have := strFind_le_length hfind
        simpa [wildcard] using this
      have hlen_take : (i.path.take index).length = index := by
        rw [List.length_take]
        omega
      by_cases hp : (i.path.take index).isPrefixOf path = true
      case neg =>
        simp [route_step, route_step_spec, wildcard_parts, hfind, hm, hp]
      case pos =>
        have hplen : index ≤ path.length := by
          rw [List.isPrefixOf_iff_prefix] at hp
          have := hp.length_le
          rw [hlen_take] at this
          exact this
        by_cases hempty : index + 3 = i.path.length
        case pos =>
          have hsuf : i.path.drop (index + 3) = [] := by
            rw [hempty]
            exact List.drop_length _
          have hidx : i.path.length - 3 = index := by omega
          have hslice : strSlice path (i.path.length - 3) path.length =
              .ok ((path.take path.length).drop index) := by
            unfold strSlice
            rw [if_pos ⟨by omega, le_refl _⟩, hidx]
          simp [route_step, route_step_spec, wildcard_parts, hfind, hm, hp, hempty, hsuf,
            hlen_take, hslice, List.take_length, hplen]
        case neg =>
          have hsuf_len : (i.path.drop (index + 3)).length = i.path.length - (index + 3) :=
            List.length_drop _ _
          by_cases hs : (i.path.drop (index + 3)).isSuffixOf path = true
          case neg =>
            have hnonnil : i.path.drop (index + 3) ≠ [] := by
              intro hcontra
              have := congrArg List.length hcontra
              rw [hsuf_len] at this
              simp at this
              omega
            simp [route_step, route_step_spec, wildcard_parts, hfind, hm, hp, hempty, hs,
              hnonnil]
          case pos =>
            have hslen : i.path.length - (index + 3) ≤ path.length := by
              rw [List.isSuffixOf_iff_suffix] at hs
              have := hs.length_le
              rw [List.length_drop] at this
              exact this
            have hidx : i.path.length - 3 - (i.path.length - (index + 3)) = index := by
              omega
            by_cases hg : index + (i.path.length - (index + 3)) ≤ path.length
            case pos =>
              have hslice : strSlice path
                  (i.path.length - 3 - (i.path.length - (index + 3)))
                  (path.length - (i.path.length - (index + 3))) =
                  .ok ((path.take (path.length - (i.path.length - (index + 3)))).drop
                    index) := by
                unfold strSlice
                rw [hidx, if_pos ⟨by omega, by omega⟩]
              simp [route_step, route_step_spec, wildcard_parts, hfind, hm, hp, hempty, hs,
                hlen_take, hslice, hg]
            case neg =>
              have hslice : strSlice path
                  (i.path.length - 3 - (i.path.length - (index + 3)))
                  (path.length - (i.path.length - (index + 3))) = .error () := by
                unfold strSlice
                rw [hidx, if_neg]
                intro hcontra
                omega
              simp [route_step, route_step_spec, wildcard_parts, hfind, hm, hp, hempty, hs,
                hlen_take, hslice, hg]

/-- Claim C3, amended: the matcher scans routes in insertion order skipping
other methods and returns the first hit; a pattern without the wildcard
token matches iff the request path ends with the full pattern (no capture);
a wildcard pattern whose prefix starts the path and whose suffix is empty or
ends the path yields the positional capture between prefix length and suffix
start when the path is at least prefix-plus-suffix long, and panics when it
is shorter; a wildcard pattern failing those tests still matches, with no
capture, when the path ends with the full literal pattern text. -/
theorem get_route_eq_spec (routes : List Route) (path : Str)
    (method : RouteMethod) :
    get_route routes path method = get_route_spec routes path method := by
  induction routes with
  | nil => rfl
  | cons i rest ih =>
    simp only [get_route, get_route_spec, route_step_eq_spec]
    cases route_step_spec i path method <;> simp [ih]

/-- Claim C3, counterexample: the wildcard pattern `/a/$$$` matches the
request path `/x/a/$$$` through the literal `ends_with` fallthrough although
the path does not start with the pattern's prefix `/a/`, and no segment is
captured. -/
theorem get_route_wildcard_literal_fallthrough :
    get_route [{ method := RouteMethod.GET, path := str "/a/$$$", resource := str "r" }]
        (str "/x/a/$$$") RouteMethod.GET =
      .ok (some { method := RouteMethod.GET, path := str "/a/$$$", resource := str "r" },
        none) ∧
    (str "/a/").isPrefixOf (str "/x/a/$$$") = false := by decide

/-- `find?` ignores filtered-out elements that cannot match. -/
theorem find?_filter_of_imp {α : Type} (l : List α) (pr q : α → Bool)
    (h : ∀ x, q x = true → pr x = true) : (l.filter pr).find? q = l.find? q := by
  induction l with
  | nil => rfl
  | cons a t ih =>
    by_cases ha : q a = true
    · rw [List.filter_cons_of_pos (h a ha), List.find?_cons_of_pos _ ha,
        List.find?_cons_of_pos _ ha]
    · have ha' : q a = false := by
        cases hqa : q a
        · rfl
        · exact absurd hqa ha
      by_cases hpa : pr a = true
      · rw [List.filter_cons_of_pos hpa, List.find?_cons_of_neg _ (by rw [ha']; simp),
          List.find?_cons_of_neg _ (by rw [ha']; simp), ih]
      · have hpa' : pr a = false := by
          cases hq : pr a
          · rfl
          · exact absurd hq hpa
        rw [List.filter_cons_of_neg (by rw [hpa']; simp), ih,
          List.find?_cons_of_neg _ (by rw [ha']; simp)]

/-- `find?` over a filter that excludes every possible match is `none`. -/
theorem find?_filter_none {α : Type} (l : List α) (pr q : α → Bool)
    (h : ∀ x, q x = true → pr x = false) : (l.filter pr).find? q = none := by
  rw [List.find?_eq_none]
  intro x hx hq
  have hmem := List.mem_filter.mp hx
  rw [h x hq] at hmem
  exact absurd hmem.2 (by simp)

/-- A list is never itself followed by something nonempty. -/
theorem ne_append_of_ne_nil {p q : Str} (hq : q ≠ []) : p ≠ p ++ q := by
  intro h
  have hl := congrArg List.length h
  rw [List.length_append] at hl
  exact hq (List.length_eq_zero.mp (by omega))

/-- `contains` agrees with membership (derived `BEq`). -/
theorem contains_eq_true_of_mem {l : List Str} {a : Str} (h : a ∈ l) :
    l.contains a = true :=
  List.elem_iff.mpr h

/-- `contains` agrees with non-membership (derived `BEq`). -/
theorem contains_eq_false_of_not_mem {l : List Str} {a : Str} (h : a ∉ l) :
    l.contains a = false := by
  cases hc : l.contains a
  · rfl
  · exact absurd (List.elem_iff.mp hc) h

/-- A joined take of the segments is a prefix of the joined whole. -/
theorem join_slash_take_prefix (segs : List Str) (m : Nat) :
    join_slash (segs.take m) <+: join_slash segs := by
  induction segs generalizing m with
  | nil => simp [join_slash]
  | cons x t ih =>
    cases m with
    | zero =>
      show join_slash [] <+: join_slash (x :: t)
      simp [join_slash]
    | succ m' =>
      cases t with
      | nil =>
        rw [show ([x] : List Str).take (m' + 1) = [x] by simp]
      | cons y t' =>
        cases m' with
        | zero =>
          show x <+: x ++ ['/'] ++ join_slash (y :: t')
          rw [List.append_assoc]
          exact List.prefix_append x _
        | succ m'' =>
          show x ++ ['/'] ++ join_slash ((y :: t').take (m'' + 1)) <+:
            x ++ ['/'] ++ join_slash (y :: t')
          obtain ⟨tail, htail⟩ := ih (m'' + 1)
          exact ⟨tail, by rw [List.append_assoc _ _ tail, htail]⟩

/-- Every candidate of `get_folders_to_check` is a prefix of the path. -/
theorem prefix_of_mem_get_folders_to_check {q s : Str} (h : q ∈ get_folders_to_check s) :
    q <+: s := by
  rw [get_folders_to_check_eq_slash_prefixes] at h
  have h' : q ∈ (List.range (splitChar '/' s).length).map
      (fun k => join_slash ((splitChar '/' s).take (k + 1))) := h
  obtain ⟨k, _, rfl⟩ := List.mem_map.mp h'
  have hp := join_slash_take_prefix (splitChar '/' s) (k + 1)
  rwa [join_slash_splitChar] at hp

/-- The path itself is among its own candidates. -/
theorem self_mem_get_folders_to_check (s : Str) : s ∈ get_folders_to_check s := by
  rw [get_folders_to_check_eq_slash_prefixes]
  show s ∈ (List.range (splitChar '/' s).length).map
      (fun k => join_slash ((splitChar '/' s).take (k + 1)))
  obtain ⟨m, hm⟩ : ∃ m, (splitChar '/' s).length = m + 1 := by
    cases h : (splitChar '/' s).length with
    | zero => exact absurd (List.length_eq_zero.mp h) (splitChar_ne_nil '/' s)
    | succ m => exact ⟨m, rfl⟩
  refine List.mem_map.mpr ⟨m, ?_, ?_⟩
  · rw [hm]
    exact List.mem_range.mpr (by omega)
  · rw [← hm, List.take_length, join_slash_splitChar]

/-- General promotion behaviour of `folder_check`: absent injected faults, a
plain file at a position whose other ancestors are not files becomes a
directory containing an `index` file with exactly the former file's bytes,
and the rename target is reported. -/
theorem folder_check_promotes (fs : Fs) (p : Str) (e : FileEntry)
    (hlk : fs.lookupFile p = some e)
    (hrf : e.readFault = false)
    (hmf : e.removeFault = false)
    (hanc : ∀ q ∈ get_folders_to_check p, q ≠ p → fs.isFile q = false)
    (hdf : fs.dirFaults.contains p = false)
    (hcf : fs.createFaults.contains (p ++ str "/index") = false)
    (hdirs : fs.dirs.contains (p ++ str "/index") = false) :
    (folder_check p fs).1 = .ok (some (p ++ str "/index")) ∧
    (folder_check p fs).2.lookupFile (p ++ str "/index") = some { content := e.content } ∧
    (folder_check p fs).2.isFile p = false ∧
    (folder_check p fs).2.dirs.contains p = true := by
  have hidx_ne : p ≠ p ++ str "/index" := ne_append_of_ne_nil (by decide)
  have hhead : ((p ++ str "/index") == p) = false :=
    beq_eq_false_iff_ne.mpr (Ne.symm hidx_ne)
  have himp : ∀ x : Str × FileEntry,
      (x.1 == p) = true → (!(x.1 == (p ++ str "/index"))) = true := by
    intro x hx
    have hxp : x.1 = p := by simpa using hx
    rw [hxp, beq_eq_false_iff_ne.mpr hidx_ne]
    rfl
  have hfile : fs.isFile p = true := by simp [Fs.isFile, hlk]
  have hread : fs.read p = .ok e.content := by simp [Fs.read, hlk, hrf]
  have hremove : fs.removeFile p =
      .ok { fs with files := fs.files.filter (fun q => !(q.1 == p)) } := by
    simp [Fs.removeFile, hlk, hmf]
  have h0 : (fs.files.filter (fun q => !(q.1 == p))).find? (fun q => q.1 == p) = none :=
    find?_filter_none _ _ _ (fun x hx => by rw [hx]; rfl)
  have hfs1_self :
      Fs.isFile { fs with files := fs.files.filter (fun q => !(q.1 == p)) } p = false := by
    simp [Fs.isFile, Fs.lookupFile, h0]
  have hfs1_other : ∀ q, q ≠ p →
      Fs.isFile { fs with files := fs.files.filter (fun x => !(x.1 == p)) } q =
        fs.isFile q := by
    intro q hq
    have hfq : (fs.files.filter (fun x => !(x.1 == p))).find? (fun x => x.1 == q) =
        fs.files.find? (fun x => x.1 == q) :=
      find?_filter_of_imp _ _ _ (fun x hx => by
        have hxq : x.1 = q := by simpa using hx
        rw [hxq, beq_eq_false_iff_ne.mpr hq]
        rfl)
    simp [Fs.isFile, Fs.lookupFile, hfq]
  have hany : (get_folders_to_check p).any
      (fun q => Fs.isFile { fs with files := fs.files.filter (fun x => !(x.1 == p)) } q) =
      false := by
    rw [List.any_eq_false]
    intro q hq
    by_cases hqp : q = p
    · subst hqp
      simp [hfs1_self]
    · rw [hfs1_other q hqp]
      simp [hanc q hq hqp]
  have hdirall : Fs.createDirAll
      { fs with files := fs.files.filter (fun x => !(x.1 == p)) } p =
      .ok { fs with
        files := fs.files.filter (fun x => !(x.1 == p)),
        dirs := get_folders_to_check p ++ fs.dirs } := by
    have hdf' : p ∉ fs.dirFaults := fun hmem =>
      absurd (contains_eq_true_of_mem hmem) (by rw [hdf]; simp)
    simp [Fs.createDirAll, hany, hdf']
  have hnotin : (p ++ str "/index") ∉ get_folders_to_check p := by
    intro hmem
    have hle := (prefix_of_mem_get_folders_to_check hmem).length_le
    rw [List.length_append] at hle
    have h6 : (str "/index").length = 6 := by decide
    omega
  have hcontains2 : (get_folders_to_check p ++ fs.dirs).contains (p ++ str "/index") =
      false := by
    apply contains_eq_false_of_not_mem
    intro hmem
    rcases List.mem_append.mp hmem with hmem | hmem
    · exact hnotin hmem
    · exact absurd (contains_eq_true_of_mem hmem) (by rw [hdirs]; simp)
  have hcreate : Fs.createFile
      { fs with
        files := fs.files.filter (fun x => !(x.1 == p)),
        dirs := get_folders_to_check p ++ fs.dirs } (p ++ str "/index") =
      .ok (Fs.setFile
        { fs with
          files := fs.files.filter (fun x => !(x.1 == p)),
          dirs := get_folders_to_check p ++ fs.dirs }
        (p ++ str "/index") { content := [] }) := by
    have hcf' : (p ++ str "/index") ∉ fs.createFaults := fun hmem =>
      absurd (contains_eq_true_of_mem hmem) (by rw [hcf]; simp)
    have hc2' : (p ++ str "/index") ∉ get_folders_to_check p ++ fs.dirs := fun hmem =>
      absurd (contains_eq_true_of_mem hmem) (by rw [hcontains2]; simp)
    simp [Fs.createFile, hcf', hc2']
  have hfc : folder_check p fs =
      (.ok (some (p ++ str "/index")),
        Fs.writeAll (Fs.setFile
          { fs with
            files := fs.files.filter (fun x => !(x.1 == p)),
            dirs := get_folders_to_check p ++ fs.dirs }
          (p ++ str "/index") { content := [] }) (p ++ str "/index") e.content) := by
    simp only [folder_check, hfile, if_true, hread, hremove, hdirall, hcreate]
  rw [hfc]
  refine ⟨rfl, ?_, ?_, ?_⟩
  · simp [Fs.writeAll, Fs.setFile, Fs.lookupFile]
  · simp only [Fs.writeAll, Fs.setFile, Fs.isFile, Fs.lookupFile]
    rw [List.find?_cons_of_neg _ (by rw [hhead]; simp)]
    rw [find?_filter_of_imp _ _ _ himp]
    rw [List.find?_cons_of_neg _ (by rw [hhead]; simp)]
    rw [find?_filter_of_imp _ _ _ himp]
    rw [h0]
    rfl
  · simp only [Fs.writeAll, Fs.setFile]
    exact contains_eq_true_of_mem
      (List.mem_append.mpr (Or.inl (self_mem_get_folders_to_check p)))

/-- Claim C1, amended: when the derived paths really collide — recording
`GET /api/svc/results.txt` with body `[1]` and then
`GET /api/svc/results.txt/detail` with body `[2]` — the store afterwards
contains `./db/api/svc/results.txt/index` (an extensionless index file) with
exactly the first body, `./db/api/svc/results.txt/detail.txt` with the new
body, the old position is a directory and no longer a file, and the first
route's resource is updated to the index path; and in general (second
conjunct) every ancestor position that exists as a plain file is promoted,
absent filesystem faults, to a directory containing an `index` file with the
former file's bytes. -/
theorem save_promotes_colliding_file :
    ((save RouteMethod.GET (str "/api/svc/results.txt/detail") [2] []
        c1_amended_world_1).1 = .ok () ∧
      c1_amended_world_2.fs.lookupFile (str "./db/api/svc/results.txt/index") =
        some { content := [1] } ∧
      c1_amended_world_2.fs.lookupFile (str "./db/api/svc/results.txt/detail.txt") =
        some { content := [2] } ∧
      c1_amended_world_2.fs.isFile (str "./db/api/svc/results.txt") = false ∧
      c1_amended_world_2.fs.dirs.contains (str "./db/api/svc/results.txt") = true ∧
      c1_amended_world_2.config.routes.map Route.resource =
        [str "./db/api/svc/results.txt/index",
         str "./db/api/svc/results.txt/detail.txt"]) ∧
    (∀ (fs : Fs) (p : Str) (e : FileEntry),
      fs.lookupFile p = some e →
      e.readFault = false →
      e.removeFault = false →
      (∀ q ∈ get_folders_to_check p, q ≠ p → fs.isFile q = false) →
      fs.dirFaults.contains p = false →
      fs.createFaults.contains (p ++ str "/index") = false →
      fs.dirs.contains (p ++ str "/index") = false →
      (folder_check p fs).1 = .ok (some (p ++ str "/index")) ∧
      (folder_check p fs).2.lookupFile (p ++ str "/index") =
        some { content := e.content } ∧
      (folder_check p fs).2.isFile p = false ∧
      (folder_check p fs).2.dirs.contains p = true) :=
  ⟨by decide, folder_check_promotes⟩

/-- Witness for `save_promotes_colliding_file` at a one-file filesystem. -/
theorem save_promotes_colliding_file_witness :
    (folder_check ['x'] { files := [(['x'], { content := [5] })] }).1 =
      .ok (some (['x'] ++ str "/index")) ∧
    (folder_check ['x'] { files := [(['x'], { content := [5] })] }).2.lookupFile
      (['x'] ++ str "/index") = some { content := [5] } ∧
    (folder_check ['x'] { files := [(['x'], { content := [5] })] }).2.isFile ['x'] = false ∧
    (folder_check ['x'] { files := [(['x'], { content := [5] })] }).2.dirs.contains ['x'] =
      true :=
  save_promotes_colliding_file.2 { files := [(['x'], { content := [5] })] } ['x']
    { content := [5] } (by decide) rfl rfl (by decide) rfl rfl rfl

end Moxy
